import Mathlib

/-!
Verification of `glslang/MachineIndependent/iomapper.cpp` (IO binding mapper).

The file embeds the source shallowly: the external program representation
(tree, symbols, qualifiers — declared in headers outside this translation
unit) is modelled as plain data, traversals as the sequence of symbol
occurrences they visit, and the functions of `iomapper.cpp` are translated
statement by statement into pure Lean functions.
-/

namespace Glslang

/-- Modelled from the spec: `EShLanguage` is the shader-stage enum consumed by
`addStage`; its declaration is outside the given source file. Only its identity
matters to the mapper, so two representative stages suffice. -/
inductive EShLanguage where
  | EShLangVertex
  | EShLangFragment
deriving DecidableEq

/-- Modelled from the spec: the storage-class enum of a qualifier. The mapper
only tests `storage == EvqUniform`; all other storage classes behave alike. -/
inductive TStorageQualifier where
  | EvqUniform
  | EvqGlobal
  | EvqTemporary
deriving DecidableEq

/-- Modelled from the spec: the qualifier record of a symbol, holding the storage
class, the `hasBinding()` / `hasSet()` presence predicates, and the mutable
`layoutBinding` / `layoutSet` fields (declared in `Types.h`, outside the given
source file). -/
structure TQualifier where
  storage : TStorageQualifier
  hasBinding : Bool
  hasSet : Bool
  layoutBinding : Int
  layoutSet : Int
deriving DecidableEq

/-- Modelled from the spec: a type as passed to the resolver; it carries its
qualifier, plus an opaque token standing for everything else in the type. -/
structure TType where
  basic : Nat
  qualifier : TQualifier
deriving DecidableEq

/-- Modelled from the spec: one symbol occurrence node (`TIntermSymbol`) with
its stable numeric identity (`getId`), name (`getName`) and type
(`getType` / `getWritableType`). -/
structure TIntermSymbol where
  id : Int
  name : String
  type : TType
deriving DecidableEq

/-- Modelled from the spec: the program representation consumed by `addStage`.
`allSyms` is the sequence of symbol occurrences visited by a whole-tree
traversal (`root->traverse`, dead code included); `liveSyms` is the sequence
visited by the live-only traversal (worklist of function bodies reachable
from the entry point, pushed by `pushFunction` and drained in `addStage`).
`numEntryPoints`, `isRecursive` and `hasTreeRoot` model
`getNumEntryPoints() == 1`, `isRecursive()` and `getTreeRoot() != nullptr`. -/
structure TIntermediate where
  numEntryPoints : Nat
  isRecursive : Bool
  hasTreeRoot : Bool
  allSyms : List TIntermSymbol
  liveSyms : List TIntermSymbol
deriving DecidableEq

/-- `TVarEntryInfo` from `iomapper.cpp`: id, stored occurrence node, liveness,
and the resolved binding/set. In the source the struct is created by aggregate
initialization `{ base->getId(), base, !traverseAll }`, which value-initializes
the trailing `newBinding`/`newSet` members to `0`. -/
structure TVarEntryInfo where
  id : Int
  symbol : TIntermSymbol
  live : Bool
  newBinding : Int
  newSet : Int
deriving DecidableEq

/-- `TVarEntryInfo::TOrderByPriority::operator()`, transcribed branch by
branch from the source (the fallthroughs of the nested `if`s reach the final
`return l.id < r.id`). -/
def orderByPriority (l r : TVarEntryInfo) : Bool :=
  let lq := l.symbol.type.qualifier
  let rq := r.symbol.type.qualifier
  if lq.hasBinding then
    if rq.hasBinding then
      if lq.hasSet then
        if !rq.hasSet then true
        else decide (l.id < r.id)
      else if rq.hasSet then false
      else decide (l.id < r.id)
    else true
  else if rq.hasBinding then false
  else
    if lq.hasSet then
      if !rq.hasSet then true
      else decide (l.id < r.id)
    else if rq.hasSet then false
    else decide (l.id < r.id)

/-- The information rank named in the comparator comment: 0 = has both
binding and set, 1 = binding only, 2 = set only, 3 = neither. Used only to
state properties of `orderByPriority`. -/
def priorityRank (e : TVarEntryInfo) : Nat :=
  let q := e.symbol.type.qualifier
  if q.hasBinding then
    if q.hasSet then 0 else 1
  else
    if q.hasSet then 2 else 3

/-- `operator<` on `TVarEntryInfo` (compares ids), used by `std::sort` for the
by-id re-sort and by `std::lower_bound` in the gather traverser. -/
def ltById (a b : TVarEntryInfo) : Bool :=
  decide (a.id < b.id)

/-- The effect of `std::lower_bound` + equality test + `insert` in
`TVarGatherTraverser::visitSymbol`, on the id-sorted entry vector: walk to the
first position whose id is not less than `ent.id`; if that position holds an
equal id, only re-assign its `live` flag (`at->live = !traverseAll`, i.e.
`ent.live`); otherwise insert `ent` there. -/
def insertOrUpdate (ent : TVarEntryInfo) : List TVarEntryInfo → List TVarEntryInfo
  | [] => [ent]
  | e :: rest =>
    if e.id < ent.id then e :: insertOrUpdate ent rest
    else if e.id = ent.id then { e with live := ent.live } :: rest
    else ent :: e :: rest

/-- `TVarGatherTraverser::visitSymbol`: only uniform-storage symbols are
collected; the fresh entry is `{ base->getId(), base, !traverseAll }` with
`newBinding`/`newSet` value-initialized to 0. -/
def gatherVisitSymbol (traverseAll : Bool) (varLiveList : List TVarEntryInfo)
    (base : TIntermSymbol) : List TVarEntryInfo :=
  if base.type.qualifier.storage = TStorageQualifier.EvqUniform then
    insertOrUpdate { id := base.id, symbol := base, live := !traverseAll,
                     newBinding := 0, newSet := 0 } varLiveList
  else
    varLiveList

/-- One gather traversal: `visitSymbol` applied to each visited occurrence in
traversal order. -/
def gatherPass (traverseAll : Bool) (syms : List TIntermSymbol)
    (varLiveList : List TVarEntryInfo) : List TVarEntryInfo :=
  syms.foldl (gatherVisitSymbol traverseAll) varLiveList

/-- `TVarSetTraverser::visitSymbol`: find the id of the occurrence in the entry
list (`std::find` with `operator==`, which compares ids); when found,
overwrite `layoutBinding` when `newBinding != -1` and `layoutSet` when
`newSet != -1`; otherwise leave the occurrence untouched. -/
def setVisitSymbol (varLiveList : List TVarEntryInfo) (base : TIntermSymbol) :
    TIntermSymbol :=
  match varLiveList.find? (fun e => e.id == base.id) with
  | none => base
  | some a =>
    let base1 := if a.newBinding ≠ -1 then
        { base with type.qualifier.layoutBinding := a.newBinding } else base
    if a.newSet ≠ -1 then
      { base1 with type.qualifier.layoutSet := a.newSet } else base1

/-- Modelled from the spec: the pluggable resolver capability
(`TIoMapResolver`, declared outside the given source file) with its three
operations, each taking the stage, the variable name, the variable type and
the liveness flag. -/
structure TIoMapResolver where
  validateBinding : EShLanguage → String → TType → Bool → Bool
  resolveBinding : EShLanguage → String → TType → Bool → Int
  resolveSet : EShLanguage → String → TType → Bool → Int

/-- One observable call made to the resolver, with its argument tuple. -/
inductive TResolverCall where
  | validateCall (stage : EShLanguage) (name : String) (ty : TType) (live : Bool)
  | resolveBindingCall (stage : EShLanguage) (name : String) (ty : TType) (live : Bool)
  | resolveSetCall (stage : EShLanguage) (name : String) (ty : TType) (live : Bool)
deriving DecidableEq

/-- The value state of `TResolverAdaptor`: the stage tag and the `error`
flag. The `resolver` and `infoSink` members are references; they are threaded
separately. -/
structure TResolverAdaptor where
  stage : EShLanguage
  error : Bool
deriving DecidableEq

/-- `TResolverAdaptor::operator()` on one entry: validate; on success resolve
binding then set into the entry; on failure append
`"Invalid binding: " + name` to the sink and set the `error` flag of the adaptor.
The last component records the calls made to the resolver. -/
def resolveOne (resolver : TIoMapResolver) (fn : TResolverAdaptor)
    (sink : List String) (ent : TVarEntryInfo) :
    TResolverAdaptor × List String × TVarEntryInfo × List TResolverCall :=
  let isValid := resolver.validateBinding fn.stage ent.symbol.name ent.symbol.type ent.live
  if isValid then
    (fn, sink,
     { ent with
       newBinding := resolver.resolveBinding fn.stage ent.symbol.name ent.symbol.type ent.live,
       newSet := resolver.resolveSet fn.stage ent.symbol.name ent.symbol.type ent.live },
     [TResolverCall.validateCall fn.stage ent.symbol.name ent.symbol.type ent.live,
      TResolverCall.resolveBindingCall fn.stage ent.symbol.name ent.symbol.type ent.live,
      TResolverCall.resolveSetCall fn.stage ent.symbol.name ent.symbol.type ent.live])
  else
    ({ fn with error := true },
     sink ++ ["Invalid binding: " ++ ent.symbol.name],
     ent,
     [TResolverCall.validateCall fn.stage ent.symbol.name ent.symbol.type ent.live])

/-- Result of a `std::for_each` over the entry list with a `TResolverAdaptor`
functor: the final state of the by-value functor copy (which `std::for_each`
returns and the caller in `addStage` discards), the sink, the updated
entries, and the trace of resolver calls. -/
structure TForEachResult where
  fn : TResolverAdaptor
  sink : List String
  entries : List TVarEntryInfo
  calls : List TResolverCall
deriving DecidableEq

/-- `std::for_each(varMap.begin(), varMap.end(), doResolve)`: the functor
state is threaded through the elements by value (mutations to the elements
persist; mutations to the functor live in the threaded copy). -/
def forEachResolve (resolver : TIoMapResolver) (fn : TResolverAdaptor)
    (sink : List String) : List TVarEntryInfo → TForEachResult
  | [] => { fn := fn, sink := sink, entries := [], calls := [] }
  | e :: es =>
    let step := resolveOne resolver fn sink e
    let rest := forEachResolve resolver step.1 step.2.1 es
    { fn := rest.fn, sink := rest.sink,
      entries := step.2.2.1 :: rest.entries,
      calls := step.2.2.2 ++ rest.calls }

/-- Insertion of one element into a list sorted by the strict comparator
`lt`: the element goes in front of the first position it compares before. -/
def insertSorted (lt : TVarEntryInfo → TVarEntryInfo → Bool) (x : TVarEntryInfo) :
    List TVarEntryInfo → List TVarEntryInfo
  | [] => [x]
  | y :: ys => if lt x y then x :: y :: ys else y :: insertSorted lt x ys

/-- `std::sort` with comparator `lt`: any conforming implementation returns a
permutation of the input that is sorted with respect to `lt`; insertion sort
is such an implementation (and by the determinism theorem below the sorted
permutation is unique on the id-deduplicated lists the mapper sorts). -/
def stdSort (lt : TVarEntryInfo → TVarEntryInfo → Bool)
    (l : List TVarEntryInfo) : List TVarEntryInfo :=
  l.foldr (insertSorted lt) []

/-- The entry list as it stands after the two gather traversals of
`addStage`: first the all-code pass over the whole tree, then the live-only
pass over the code reachable from the entry point. -/
def gatheredVarMap (intermediate : TIntermediate) : List TVarEntryInfo :=
  gatherPass false intermediate.liveSyms
    (gatherPass true intermediate.allSyms [])

/-- The entry list after `std::sort(..., TOrderByPriority())`. -/
def prioritySorted (intermediate : TIntermediate) : List TVarEntryInfo :=
  stdSort orderByPriority (gatheredVarMap intermediate)

/-- The entry list after the resolver pass and the re-sort by id — the list
the write-back traverser consults. -/
def finalEntries (stage : EShLanguage) (intermediate : TIntermediate)
    (infoSink : List String) (resolver : TIoMapResolver) : List TVarEntryInfo :=
  stdSort ltById
    (forEachResolve resolver { stage := stage, error := false } infoSink
      (prioritySorted intermediate)).entries

/-- `TIoMapper::addStage`, transcribed from the source: trivial success on a
null resolver; precondition checks (entry-point count, recursion, tree root)
with bare `false` returns; gather (all pass, then live pass), priority sort,
resolver pass via `std::for_each`, and — when `doResolve.error` is not set —
the by-id re-sort and the write-back traversal of the whole tree.

Faithfulness note: `std::for_each` takes the functor by value, so the
`error = true` assignments made inside `operator()` land in the copy that
`std::for_each` returns, and the source discards that return value; the
`doResolve.error` tested afterwards is the original, still-`false` flag.
The embedding reproduces this exactly: `doResolve` is unchanged by the call
and the `fn` field of the result is dropped. -/
def addStage (stage : EShLanguage) (intermediate : TIntermediate)
    (infoSink : List String) (resolver : Option TIoMapResolver) :
    Bool × TIntermediate × List String :=
  match resolver with
  | none => (true, intermediate, infoSink)
  | some resolver =>
    if intermediate.numEntryPoints != 1 || intermediate.isRecursive then
      (false, intermediate, infoSink)
    else if !intermediate.hasTreeRoot then
      (false, intermediate, infoSink)
    else
      let doResolve : TResolverAdaptor := { stage := stage, error := false }
      let fr := forEachResolve resolver doResolve infoSink (prioritySorted intermediate)
      if !doResolve.error then
        let varMap := stdSort ltById fr.entries
        (!doResolve.error,
         { intermediate with allSyms := intermediate.allSyms.map (setVisitSymbol varMap) },
         fr.sink)
      else
        (!doResolve.error, intermediate, fr.sink)

/-! ### Properties of the priority comparator -/

/-- The comparator computes the lexicographic strict order on
(information rank, id). -/
theorem orderByPriority_iff (l r : TVarEntryInfo) :
    orderByPriority l r = true ↔
      (priorityRank l < priorityRank r ∨
       (priorityRank l = priorityRank r ∧ l.id < r.id)) := by
  simp only [orderByPriority, priorityRank]
  cases hlb : l.symbol.type.qualifier.hasBinding <;>
    cases hls : l.symbol.type.qualifier.hasSet <;>
      cases hrb : r.symbol.type.qualifier.hasBinding <;>
        cases hrs : r.symbol.type.qualifier.hasSet <;>
          simp [hlb, hls, hrb, hrs] <;> omega

theorem orderByPriority_false_iff (l r : TVarEntryInfo) :
    orderByPriority l r = false ↔
      ¬ (priorityRank l < priorityRank r ∨
         (priorityRank l = priorityRank r ∧ l.id < r.id)) := by
  rw [← orderByPriority_iff]
  cases orderByPriority l r <;> simp

theorem orderByPriority_asymm {a b : TVarEntryInfo}
    (h : orderByPriority a b = true) : orderByPriority b a = false := by
  rw [orderByPriority_iff] at h
  rw [orderByPriority_false_iff]
  omega

/-- Transitivity of the non-strict companion relation
(`fun a b => orderByPriority b a = false`). -/
theorem orderByPriority_le_trans {a b c : TVarEntryInfo}
    (h1 : orderByPriority b a = false) (h2 : orderByPriority c b = false) :
    orderByPriority c a = false := by
  rw [orderByPriority_false_iff] at h1 h2 ⊢
  omega

/-- A strictly smaller element is below everything the larger one is below. -/
theorem orderByPriority_lt_of_lt_of_le {x y z : TVarEntryInfo}
    (h1 : orderByPriority x y = true) (h2 : orderByPriority z y = false) :
    orderByPriority z x = false := by
  rw [orderByPriority_iff] at h1
  rw [orderByPriority_false_iff] at h2 ⊢
  omega

/-- Mutually incomparable entries agree on rank and id. -/
theorem orderByPriority_antisymm {a b : TVarEntryInfo}
    (h1 : orderByPriority a b = false) (h2 : orderByPriority b a = false) :
    priorityRank a = priorityRank b ∧ a.id = b.id := by
  rw [orderByPriority_false_iff] at h1 h2
  omega

/-! ### Concrete fixtures used by the closed evaluation theorems -/

/-- A uniform sampler occurrence with an explicit binding 5 and no set. -/
def sym1 : TIntermSymbol :=
  { id := 1, name := "u",
    type := { basic := 0,
              qualifier := { storage := TStorageQualifier.EvqUniform,
                             hasBinding := true, hasSet := false,
                             layoutBinding := 5, layoutSet := 0 } } }

/-- A second uniform occurrence, id 2, with no explicit binding and no set. -/
def sym2 : TIntermSymbol :=
  { id := 2, name := "v",
    type := { basic := 0,
              qualifier := { storage := TStorageQualifier.EvqUniform,
                             hasBinding := false, hasSet := false,
                             layoutBinding := 7, layoutSet := 7 } } }

/-- A well-formed one-entry-point program holding the single uniform `sym1`,
which is also live. -/
def itm1 : TIntermediate :=
  { numEntryPoints := 1, isRecursive := false, hasTreeRoot := true,
    allSyms := [sym1], liveSyms := [sym1] }

/-- A malformed program: two entry points. -/
def itmBad : TIntermediate :=
  { numEntryPoints := 2, isRecursive := false, hasTreeRoot := true,
    allSyms := [sym1], liveSyms := [sym1] }

/-- A resolver that rejects every binding. -/
def rejectAll : TIoMapResolver :=
  { validateBinding := fun _ _ _ _ => false,
    resolveBinding := fun _ _ _ _ => 7,
    resolveSet := fun _ _ _ _ => 3 }

/-- A resolver that accepts every binding. -/
def acceptAll : TIoMapResolver :=
  { validateBinding := fun _ _ _ _ => true,
    resolveBinding := fun _ _ _ _ => 10,
    resolveSet := fun _ _ _ _ => 0 }

/-! ### Claim theorems -/

/-- C7: `addStage` with an absent resolver returns success and leaves the
program (hence every symbol qualifier) and the diagnostics sink unchanged,
for every program and stage. -/
theorem addStage_no_resolver_noop (stage : EShLanguage) (itm : TIntermediate)
    (sink : List String) :
    addStage stage itm sink none = (true, itm, sink) := rfl

/-- C10: the null-resolver check precedes the precondition checks. A call with
a null resolver returns success and mutates nothing even when the program has
a wrong number of entry points, is recursive, or lacks a tree root; and any
call that returns failure must have been given a resolver. -/
theorem null_resolver_precedes_preconditions :
    (∀ (stage : EShLanguage) (itm : TIntermediate) (sink : List String),
      (itm.numEntryPoints ≠ 1 ∨ itm.isRecursive = true ∨ itm.hasTreeRoot = false) →
      addStage stage itm sink none = (true, itm, sink)) ∧
    (∀ (stage : EShLanguage) (itm : TIntermediate) (sink : List String)
        (resolver : Option TIoMapResolver),
      (addStage stage itm sink resolver).1 = false → resolver ≠ none) := by
  constructor
  · intro stage itm sink _h
    rfl
  · intro stage itm sink resolver h hnone
    subst hnone
    simp [addStage] at h

/-- Witness for C10: a two-entry-point program with a null resolver still
succeeds without touching anything. -/
theorem null_resolver_precedes_preconditions_w :
    addStage EShLanguage.EShLangVertex itmBad [] none = (true, itmBad, []) :=
  null_resolver_precedes_preconditions.1 EShLanguage.EShLangVertex itmBad []
    (Or.inl (by decide))

/-- C6: with a resolver supplied, a program that does not have exactly one
entry point, or is recursive, or has no tree root, makes `addStage` return
`false` with no diagnostic message and no mutation of the program. -/
theorem addStage_precondition_failure (stage : EShLanguage)
    (itm : TIntermediate) (sink : List String) (r : TIoMapResolver)
    (h : itm.numEntryPoints ≠ 1 ∨ itm.isRecursive = true ∨ itm.hasTreeRoot = false) :
    addStage stage itm sink (some r) = (false, itm, sink) := by
  rcases h with h | h | h
  · simp [addStage, h]
  · simp [addStage, h]
  · simp [addStage, h]

/-- Witness for C6: the two-entry-point program with a real resolver fails
fast, reporting nothing and mutating nothing. -/
theorem addStage_precondition_failure_w :
    addStage EShLanguage.EShLangVertex itmBad [] (some acceptAll) =
      (false, itmBad, []) :=
  addStage_precondition_failure EShLanguage.EShLangVertex itmBad [] acceptAll
    (Or.inl (by decide))

/-- C2 (counterexample to order-independence): `visitSymbol` of the gather
traverser assigns `at->live = !traverseAll` on a revisit, so while the
shipped all-code-first order marks a live symbol live (first conjunct),
running the live-only pass first and the all-code pass second downgrades the
already-true live flag back to false (second conjunct), contradicting the
claim that liveness is monotonic-to-true regardless of traversal order. -/
theorem gather_live_then_all_downgrades_live :
    gatherPass false [sym1] (gatherPass true [sym1] []) =
      [{ id := 1, symbol := sym1, live := true, newBinding := 0, newSet := 0 }] ∧
    gatherPass true [sym1] (gatherPass false [sym1] []) =
      [{ id := 1, symbol := sym1, live := false, newBinding := 0, newSet := 0 }] := by
  constructor <;> rfl

/-- C1 (the code, evaluated at a failing input): with a resolver that rejects
the only entry, `addStage` still returns `true` and the write-back still
runs, overwriting the explicit binding 5 of the occurrence with the
zero-initialized `newBinding`/`newSet` of the failed entry. The diagnostic is
emitted, but the `error = true` set inside `TResolverAdaptor::operator()`
lands in the functor copy that `std::for_each` takes by value, so the
`doResolve.error` consulted afterwards is still `false`: failure does not
suppress write-back and does not produce a `false` return. -/
theorem addStage_invalid_binding_returns_true_and_mutates :
    addStage EShLanguage.EShLangVertex itm1 [] (some rejectAll) =
      (true,
       { itm1 with allSyms :=
          [{ sym1 with
               type.qualifier.layoutBinding := 0,
               type.qualifier.layoutSet := 0 }] },
       ["Invalid binding: u"]) := by
  decide

/-- C3: `TOrderByPriority::operator()` is a strict weak order (irreflexive,
transitive, asymmetric, with transitive incomparability), and it orders any
two entries by information rank — both binding and set, then binding only,
then set only, then neither — with lower id breaking ties among entries of
equal rank. -/
theorem orderByPriority_strict_weak_order :
    (∀ a : TVarEntryInfo, orderByPriority a a = false) ∧
    (∀ a b c : TVarEntryInfo, orderByPriority a b = true →
      orderByPriority b c = true → orderByPriority a c = true) ∧
    (∀ a b : TVarEntryInfo, orderByPriority a b = true →
      orderByPriority b a = false) ∧
    (∀ a b c : TVarEntryInfo,
      orderByPriority a b = false → orderByPriority b a = false →
      orderByPriority b c = false → orderByPriority c b = false →
      orderByPriority a c = false ∧ orderByPriority c a = false) ∧
    (∀ l r : TVarEntryInfo, orderByPriority l r = true ↔
      (priorityRank l < priorityRank r ∨
       (priorityRank l = priorityRank r ∧ l.id < r.id))) := by
  refine ⟨?_, ?_, fun a b h => orderByPriority_asymm h, ?_, orderByPriority_iff⟩
  · intro a
    rw [orderByPriority_false_iff]
    omega
  · intro a b c h1 h2
    rw [orderByPriority_iff] at h1 h2 ⊢
    omega
  · intro a b c h1 h2 h3 h4
    rw [orderByPriority_false_iff] at h1 h2 h3 h4
    rw [orderByPriority_false_iff, orderByPriority_false_iff]
    exact ⟨by omega, by omega⟩

/-- Witness for C3: concrete entries of the four ranks, ordered by the
transitivity and rank conjuncts of the theorem at concrete inputs. -/
theorem orderByPriority_strict_weak_order_w :
    orderByPriority
      { id := 4, symbol := sym1, live := true, newBinding := 0, newSet := 0 }
      { id := 2, symbol := sym2, live := true, newBinding := 0, newSet := 0 } = true ∧
    orderByPriority
      { id := 1, symbol := sym2, live := true, newBinding := 0, newSet := 0 }
      { id := 3, symbol := sym2, live := true, newBinding := 0, newSet := 0 } = true := by
  refine ⟨?_, ?_⟩
  · exact (orderByPriority_strict_weak_order.2.2.2.2 _ _).mpr (by decide)
  · exact orderByPriority_strict_weak_order.2.1
      { id := 1, symbol := sym2, live := true, newBinding := 0, newSet := 0 }
      { id := 2, symbol := sym2, live := false, newBinding := 0, newSet := 0 }
      { id := 3, symbol := sym2, live := true, newBinding := 0, newSet := 0 }
      (by decide) (by decide)

/-- C4: closed-form characterization of the resolver pass. `validateBinding`
is called exactly once per entry, in list order — dead entries and entries
after an earlier failure included; `resolveBinding` and `resolveSet` are
called, and their results stored into `newBinding`/`newSet`, exactly when the
validation of that entry succeeded; a failed validation instead appends
`"Invalid binding: " ++ name` to the sink and sets the error flag of the
threaded adaptor state, which ends up `true` iff it started `true` or some
entry failed. The stage tag is never changed. -/
theorem forEachResolve_characterization (resolver : TIoMapResolver)
    (fn : TResolverAdaptor) (sink : List String) (es : List TVarEntryInfo) :
    (forEachResolve resolver fn sink es).calls =
      es.flatMap (fun e =>
        TResolverCall.validateCall fn.stage e.symbol.name e.symbol.type e.live ::
        (if resolver.validateBinding fn.stage e.symbol.name e.symbol.type e.live then
          [TResolverCall.resolveBindingCall fn.stage e.symbol.name e.symbol.type e.live,
           TResolverCall.resolveSetCall fn.stage e.symbol.name e.symbol.type e.live]
         else [])) ∧
    (forEachResolve resolver fn sink es).entries =
      es.map (fun e =>
        if resolver.validateBinding fn.stage e.symbol.name e.symbol.type e.live then
          { e with
            newBinding := resolver.resolveBinding fn.stage e.symbol.name e.symbol.type e.live,
            newSet := resolver.resolveSet fn.stage e.symbol.name e.symbol.type e.live }
        else e) ∧
    (forEachResolve resolver fn sink es).sink =
      sink ++ (es.filter (fun e =>
          !(resolver.validateBinding fn.stage e.symbol.name e.symbol.type e.live))).map
        (fun e => "Invalid binding: " ++ e.symbol.name) ∧
    (forEachResolve resolver fn sink es).fn.error =
      (fn.error || es.any (fun e =>
          !(resolver.validateBinding fn.stage e.symbol.name e.symbol.type e.live))) ∧
    (forEachResolve resolver fn sink es).fn.stage = fn.stage := by
  induction es generalizing fn sink with
  | nil => simp [forEachResolve]
  | cons e t ih =>
    by_cases hv : resolver.validateBinding fn.stage e.symbol.name e.symbol.type e.live = true
    · rcases ih fn sink with ⟨hc, he, hs, herr, hst⟩
      simp [forEachResolve, resolveOne, hv, hc, he, hs, herr, hst]
    · have hv' : resolver.validateBinding fn.stage e.symbol.name e.symbol.type e.live = false := by
        simpa using hv
      rcases ih { fn with error := true } (sink ++ ["Invalid binding: " ++ e.symbol.name])
        with ⟨hc, he, hs, herr, hst⟩
      simp [forEachResolve, resolveOne, hv', hc, he, hs, herr, hst]

/-! ### The gather invariants: id-sorted, deduplicated, idempotent -/

/-- The ids of an entry list, in list order. -/
def idsOf (l : List TVarEntryInfo) : List Int :=
  l.map TVarEntryInfo.id

theorem mem_idsOf_insertOrUpdate (ent : TVarEntryInfo) (l : List TVarEntryInfo)
    (z : Int) :
    z ∈ idsOf (insertOrUpdate ent l) ↔ z = ent.id ∨ z ∈ idsOf l := by
  induction l with
  | nil => simp [insertOrUpdate, idsOf]
  | cons e rest ih =>
    by_cases h1 : e.id < ent.id
    · simp only [insertOrUpdate, if_pos h1, idsOf, List.map_cons, List.mem_cons]
      have ih' : z ∈ List.map TVarEntryInfo.id (insertOrUpdate ent rest) ↔
          z = ent.id ∨ z ∈ List.map TVarEntryInfo.id rest := ih
      rw [ih']
      tauto
    · by_cases h2 : e.id = ent.id
      · simp only [insertOrUpdate, if_neg h1, if_pos h2, idsOf, List.map_cons,
          List.mem_cons]
        have hid : ({ e with live := ent.live } : TVarEntryInfo).id = e.id := rfl
        rw [hid, h2]
        tauto
      · simp only [insertOrUpdate, if_neg h1, if_neg h2, idsOf, List.map_cons,
          List.mem_cons]

theorem pairwise_idsOf_insertOrUpdate (ent : TVarEntryInfo)
    (l : List TVarEntryInfo) (h : (idsOf l).Pairwise (· < ·)) :
    (idsOf (insertOrUpdate ent l)).Pairwise (· < ·) := by
  induction l with
  | nil => simp [insertOrUpdate, idsOf]
  | cons e rest ih =>
    simp only [idsOf, List.map_cons, List.pairwise_cons] at h
    obtain ⟨hhead, htail⟩ := h
    by_cases h1 : e.id < ent.id
    · simp only [insertOrUpdate, if_pos h1, idsOf, List.map_cons, List.pairwise_cons]
      refine ⟨?_, ih htail⟩
      intro z hz
      rcases (mem_idsOf_insertOrUpdate ent rest z).mp (by simpa [idsOf] using hz)
        with h | h
      · omega
      · exact hhead z (by simpa [idsOf] using h)
    · by_cases h2 : e.id = ent.id
      · simp only [insertOrUpdate, if_neg h1, if_pos h2, idsOf, List.map_cons,
          List.pairwise_cons]
        exact ⟨hhead, htail⟩
      · simp only [insertOrUpdate, if_neg h1, if_neg h2, idsOf, List.map_cons,
          List.pairwise_cons]
        refine ⟨?_, hhead, htail⟩
        intro z hz
        rcases List.mem_cons.mp hz with rfl | h
        · omega
        · have := hhead z h
          omega

theorem live_false_insertOrUpdate (ent : TVarEntryInfo) (l : List TVarEntryInfo)
    (hall : ∀ e ∈ l, e.live = false) (hent : ent.live = false) :
    ∀ x ∈ insertOrUpdate ent l, x.live = false := by
  induction l with
  | nil =>
    intro x hx
    simp [insertOrUpdate] at hx
    subst hx
    exact hent
  | cons e rest ih =>
    intro x hx
    by_cases h1 : e.id < ent.id
    · simp only [insertOrUpdate, if_pos h1, List.mem_cons] at hx
      rcases hx with rfl | hx
      · exact hall x (by simp)
      · exact ih (fun y hy => hall y (by simp [hy])) x hx
    · by_cases h2 : e.id = ent.id
      · simp only [insertOrUpdate, if_neg h1, if_pos h2, List.mem_cons] at hx
        rcases hx with rfl | hx
        · simpa using hent
        · exact hall x (by simp [hx])
      · simp only [insertOrUpdate, if_neg h1, if_neg h2, List.mem_cons] at hx
        rcases hx with rfl | rfl | hx
        · exact hent
        · exact hall x (by simp)
        · exact hall x (by simp [hx])

theorem gatherPass_cons (t : Bool) (s : TIntermSymbol) (syms : List TIntermSymbol)
    (m : List TVarEntryInfo) :
    gatherPass t (s :: syms) m = gatherPass t syms (gatherVisitSymbol t m s) := rfl

theorem pairwise_gatherPass (t : Bool) (syms : List TIntermSymbol) :
    ∀ m, (idsOf m).Pairwise (· < ·) →
      (idsOf (gatherPass t syms m)).Pairwise (· < ·) := by
  induction syms with
  | nil => intro m h; exact h
  | cons s rest ih =>
    intro m h
    rw [gatherPass_cons]
    apply ih
    unfold gatherVisitSymbol
    split
    · exact pairwise_idsOf_insertOrUpdate _ _ h
    · exact h

theorem mem_idsOf_gatherPass_mono (t : Bool) (syms : List TIntermSymbol) :
    ∀ m z, z ∈ idsOf m → z ∈ idsOf (gatherPass t syms m) := by
  induction syms with
  | nil => intro m z h; exact h
  | cons s rest ih =>
    intro m z h
    rw [gatherPass_cons]
    apply ih
    unfold gatherVisitSymbol
    split
    · exact (mem_idsOf_insertOrUpdate _ _ _).mpr (Or.inr h)
    · exact h

theorem mem_idsOf_gatherPass_uniform (t : Bool) (syms : List TIntermSymbol) :
    ∀ m s, s ∈ syms → s.type.qualifier.storage = TStorageQualifier.EvqUniform →
      s.id ∈ idsOf (gatherPass t syms m) := by
  induction syms with
  | nil => intro m s h; simp at h
  | cons s0 rest ih =>
    intro m s hs hu
    rcases List.mem_cons.mp hs with rfl | hs
    · rw [gatherPass_cons]
      apply mem_idsOf_gatherPass_mono
      unfold gatherVisitSymbol
      rw [if_pos hu]
      exact (mem_idsOf_insertOrUpdate _ _ _).mpr (Or.inl rfl)
    · rw [gatherPass_cons]
      exact ih _ s hs hu

theorem live_false_gatherPass (syms : List TIntermSymbol) :
    ∀ m, (∀ e ∈ m, e.live = false) →
      ∀ e ∈ gatherPass true syms m, e.live = false := by
  induction syms with
  | nil => intro m h; exact h
  | cons s rest ih =>
    intro m h
    rw [gatherPass_cons]
    apply ih
    unfold gatherVisitSymbol
    split
    · exact live_false_insertOrUpdate _ _ h rfl
    · exact h

theorem insertOrUpdate_eq_self (ent : TVarEntryInfo) (l : List TVarEntryInfo)
    (hp : (idsOf l).Pairwise (· < ·)) (hm : ent.id ∈ idsOf l)
    (hent : ent.live = false) (hall : ∀ e ∈ l, e.live = false) :
    insertOrUpdate ent l = l := by
  induction l with
  | nil => simp [idsOf] at hm
  | cons e rest ih =>
    simp only [idsOf, List.map_cons, List.pairwise_cons] at hp
    obtain ⟨hhead, htail⟩ := hp
    by_cases h1 : e.id < ent.id
    · have hm' : ent.id ∈ idsOf rest := by
        rcases (by simpa [idsOf] using hm : ent.id = e.id ∨ ent.id ∈ idsOf rest)
          with h | h
        · omega
        · exact h
      simp only [insertOrUpdate, if_pos h1]
      rw [ih htail hm' (fun y hy => hall y (by simp [hy]))]
    · by_cases h2 : e.id = ent.id
      · simp only [insertOrUpdate, if_neg h1, if_pos h2]
        have he : e.live = false := hall e (by simp)
        rw [hent, ← he]
      · exfalso
        rcases (by simpa [idsOf] using hm : ent.id = e.id ∨ ent.id ∈ idsOf rest)
          with h | h
        · exact h2 h.symm
        · have := hhead _ (by simpa [idsOf] using h)
          omega

theorem gatherPass_true_fixed (syms : List TIntermSymbol) :
    ∀ m, (idsOf m).Pairwise (· < ·) → (∀ e ∈ m, e.live = false) →
      (∀ s ∈ syms, s.type.qualifier.storage = TStorageQualifier.EvqUniform →
        s.id ∈ idsOf m) →
      gatherPass true syms m = m := by
  induction syms with
  | nil => intro m _ _ _; rfl
  | cons s rest ih =>
    intro m hp hl hmem
    rw [gatherPass_cons]
    have hstep : gatherVisitSymbol true m s = m := by
      unfold gatherVisitSymbol
      split
      · exact insertOrUpdate_eq_self _ _ hp
          (by simpa using hmem s (by simp) (by assumption)) rfl hl
      · rfl
    rw [hstep]
    exact ih m hp hl (fun x hx hu => hmem x (by simp [hx]) hu)

/-- C8: collection is idempotent and duplicate-free. The all-code gather pass
keeps the entry list strictly sorted by id (hence with at most one entry per
id), and running it a second time over the same symbol sequence returns the
list unchanged — in particular with the same length and the same ids. -/
theorem gather_all_pass_idempotent (syms : List TIntermSymbol) :
    gatherPass true syms (gatherPass true syms []) = gatherPass true syms [] ∧
    (gatherPass true syms (gatherPass true syms [])).length =
      (gatherPass true syms []).length ∧
    idsOf (gatherPass true syms (gatherPass true syms [])) =
      idsOf (gatherPass true syms []) ∧
    (idsOf (gatherPass true syms [])).Pairwise (· < ·) := by
  have hp : (idsOf (gatherPass true syms [])).Pairwise (· < ·) :=
    pairwise_gatherPass true syms [] (by simp [idsOf])
  have hl : ∀ e ∈ gatherPass true syms [], e.live = false :=
    live_false_gatherPass syms [] (by simp)
  have hmem : ∀ s ∈ syms,
      s.type.qualifier.storage = TStorageQualifier.EvqUniform →
      s.id ∈ idsOf (gatherPass true syms []) :=
    fun s hs hu => mem_idsOf_gatherPass_uniform true syms [] s hs hu
  have heq := gatherPass_true_fixed syms (gatherPass true syms []) hp hl hmem
  exact ⟨heq, by rw [heq], by rw [heq], hp⟩

/-! ### Determinism of the priority sort -/

/-- The postcondition relation of `std::sort` with comparator
`orderByPriority`: consecutive elements `a` before `b` satisfy
`!comp(b, a)`. -/
def prioLe (a b : TVarEntryInfo) : Prop :=
  orderByPriority b a = false

theorem mem_insertSorted (lt : TVarEntryInfo → TVarEntryInfo → Bool)
    (x z : TVarEntryInfo) (l : List TVarEntryInfo) :
    z ∈ insertSorted lt x l ↔ z = x ∨ z ∈ l := by
  induction l with
  | nil => simp [insertSorted]
  | cons y ys ih =>
    by_cases hlt : lt x y
    · simp [insertSorted, hlt]
    · simp [insertSorted, hlt, ih]
      tauto

theorem perm_insertSorted (lt : TVarEntryInfo → TVarEntryInfo → Bool)
    (x : TVarEntryInfo) (l : List TVarEntryInfo) :
    (insertSorted lt x l).Perm (x :: l) := by
  induction l with
  | nil => exact List.Perm.refl _
  | cons y ys ih =>
    by_cases hlt : lt x y
    · simp only [insertSorted, if_pos hlt]
      exact List.Perm.refl _
    · simp only [insertSorted, if_neg hlt]
      exact (List.Perm.cons y ih).trans (List.Perm.swap x y ys)

theorem perm_stdSort (lt : TVarEntryInfo → TVarEntryInfo → Bool)
    (l : List TVarEntryInfo) : (stdSort lt l).Perm l := by
  induction l with
  | nil => exact List.Perm.refl _
  | cons a t ih =>
    exact (perm_insertSorted lt a (stdSort lt t)).trans (List.Perm.cons a ih)

theorem pairwise_insertSorted (x : TVarEntryInfo) (l : List TVarEntryInfo)
    (h : l.Pairwise prioLe) :
    (insertSorted orderByPriority x l).Pairwise prioLe := by
  induction l with
  | nil => simp [insertSorted]
  | cons y ys ih =>
    rw [List.pairwise_cons] at h
    obtain ⟨hy, hys⟩ := h
    by_cases hlt : orderByPriority x y = true
    · simp only [insertSorted, hlt, if_pos]
      refine List.Pairwise.cons ?_ (List.Pairwise.cons hy hys)
      intro z hz
      rcases List.mem_cons.mp hz with rfl | hz'
      · exact orderByPriority_asymm hlt
      · exact orderByPriority_lt_of_lt_of_le hlt (hy z hz')
    · have hlt' : orderByPriority x y = false := by simpa using hlt
      simp only [insertSorted, hlt', Bool.false_eq_true, if_neg]
      refine List.Pairwise.cons ?_ (ih hys)
      intro z hz
      rcases (mem_insertSorted _ _ _ _).mp hz with rfl | hz'
      · exact hlt'
      · exact hy z hz'

theorem pairwise_stdSort (l : List TVarEntryInfo) :
    (stdSort orderByPriority l).Pairwise prioLe := by
  induction l with
  | nil => simp [stdSort]
  | cons a t ih => exact pairwise_insertSorted a (stdSort orderByPriority t) ih

/-- Among lists without duplicate ids, a permutation class has at most one
member sorted for the priority comparator: the comparator totally orders
entries with distinct ids. -/
theorem sorted_perm_unique : ∀ {l₁ l₂ : List TVarEntryInfo}, l₁.Perm l₂ →
    l₁.Pairwise prioLe → l₂.Pairwise prioLe → (idsOf l₁).Nodup → l₁ = l₂ := by
  intro l₁
  induction l₁ with
  | nil =>
    intro l₂ hp _ _ _
    exact (hp.symm.eq_nil).symm
  | cons a t ih =>
    intro l₂ hp h1 h2 hnd
    cases l₂ with
    | nil => exact absurd hp.eq_nil (by simp)
    | cons b t₂ =>
      have hab : a = b := by
        by_contra hne
        have ha2 : a ∈ b :: t₂ := hp.mem_iff.mp (by simp)
        have hb1 : b ∈ a :: t := hp.mem_iff.mpr (by simp)
        have ha2' : a ∈ t₂ := by
          rcases List.mem_cons.mp ha2 with h | h
          · exact absurd h hne
          · exact h
        have hb1' : b ∈ t := by
          rcases List.mem_cons.mp hb1 with h | h
          · exact absurd h.symm hne
          · exact h
        have hr1 : prioLe a b := (List.pairwise_cons.mp h1).1 b hb1'
        have hr2 : prioLe b a := (List.pairwise_cons.mp h2).1 a ha2'
        have hid : a.id = b.id := (orderByPriority_antisymm hr2 hr1).2
        exact hne (List.inj_on_of_nodup_map hnd (by simp) (List.mem_cons.mpr (Or.inr hb1')) hid)
      subst hab
      have htl : t = t₂ :=
        ih hp.cons_inv (List.pairwise_cons.mp h1).2 (List.pairwise_cons.mp h2).2
          (List.nodup_cons.mp (by simpa [idsOf] using hnd)).2
      rw [htl]

theorem pairwise_idsOf_gatheredVarMap (itm : TIntermediate) :
    (idsOf (gatheredVarMap itm)).Pairwise (· < ·) :=
  pairwise_gatherPass false itm.liveSyms _
    (pairwise_gatherPass true itm.allSyms [] (by simp [idsOf]))

theorem nodup_idsOf_gatheredVarMap (itm : TIntermediate) :
    (idsOf (gatheredVarMap itm)).Nodup :=
  (pairwise_idsOf_gatheredVarMap itm).imp (fun hab => ne_of_lt hab)

/-- C9: the resolver interaction of `addStage` is deterministic. For a fixed
input tree, any list that a conforming `std::sort` may hand to the resolver
pass — any permutation of the gathered entry list sorted for the priority
comparator — is equal to the one the embedding uses, so the trace of
resolver calls (hence the sequence of (name, type, live) argument tuples) is
identical across runs; the final id tie-break makes the sorted order unique
because the gathered list has no duplicate ids. -/
theorem resolver_call_sequence_deterministic (itm : TIntermediate)
    (l : List TVarEntryInfo) (hperm : l.Perm (gatheredVarMap itm))
    (hsort : l.Pairwise prioLe) (resolver : TIoMapResolver)
    (fn : TResolverAdaptor) (sink : List String) :
    l = prioritySorted itm ∧
    (forEachResolve resolver fn sink l).calls =
      (forEachResolve resolver fn sink (prioritySorted itm)).calls := by
  have h1 : (prioritySorted itm).Perm (gatheredVarMap itm) :=
    perm_stdSort orderByPriority (gatheredVarMap itm)
  have h2 : (prioritySorted itm).Pairwise prioLe :=
    pairwise_stdSort (gatheredVarMap itm)
  have hp : l.Perm (prioritySorted itm) := hperm.trans h1.symm
  have hnd : (idsOf l).Nodup :=
    ((hperm.map TVarEntryInfo.id).nodup_iff).mpr (nodup_idsOf_gatheredVarMap itm)
  have heq : l = prioritySorted itm := sorted_perm_unique hp hsort h2 hnd
  exact ⟨heq, by rw [heq]⟩

/-- A fixed two-uniform program used to witness determinism. -/
def itm9 : TIntermediate :=
  { numEntryPoints := 1, isRecursive := false, hasTreeRoot := true,
    allSyms := [sym2, sym1], liveSyms := [sym1] }

/-- Witness for C9 at a concrete program, resolver, and sorted permutation. -/
theorem resolver_call_sequence_deterministic_w :
    stdSort orderByPriority (gatheredVarMap itm9) = prioritySorted itm9 ∧
    (forEachResolve acceptAll { stage := EShLanguage.EShLangVertex, error := false } []
        (stdSort orderByPriority (gatheredVarMap itm9))).calls =
      (forEachResolve acceptAll { stage := EShLanguage.EShLangVertex, error := false } []
        (prioritySorted itm9)).calls :=
  resolver_call_sequence_deterministic itm9
    (stdSort orderByPriority (gatheredVarMap itm9))
    (perm_stdSort orderByPriority (gatheredVarMap itm9))
    (pairwise_stdSort (gatheredVarMap itm9))
    acceptAll { stage := EShLanguage.EShLangVertex, error := false } []

/-! ### Write-back fidelity -/

theorem setVisitSymbol_id (es : List TVarEntryInfo) (b : TIntermSymbol) :
    (setVisitSymbol es b).id = b.id := by
  unfold setVisitSymbol
  cases es.find? (fun e => e.id == b.id) with
  | none => rfl
  | some a =>
    by_cases h1 : a.newBinding ≠ -1 <;> by_cases h2 : a.newSet ≠ -1 <;>
      simp [h1, h2]

theorem setVisitSymbol_none (es : List TVarEntryInfo) (b : TIntermSymbol)
    (h : es.find? (fun e => e.id == b.id) = none) :
    setVisitSymbol es b = b := by
  unfold setVisitSymbol
  rw [h]

theorem setVisitSymbol_found (es : List TVarEntryInfo) (b : TIntermSymbol)
    (a : TVarEntryInfo) (h : es.find? (fun e => e.id == b.id) = some a) :
    setVisitSymbol es b =
      { b with
        type.qualifier.layoutBinding :=
          if a.newBinding ≠ -1 then a.newBinding else b.type.qualifier.layoutBinding,
        type.qualifier.layoutSet :=
          if a.newSet ≠ -1 then a.newSet else b.type.qualifier.layoutSet } := by
  unfold setVisitSymbol
  rw [h]
  by_cases h1 : a.newBinding ≠ -1 <;> by_cases h2 : a.newSet ≠ -1 <;>
    simp [h1, h2]

/-- What the claim requires of the write-back output `out` against the input
occurrence sequence `orig` and the resolved entry list `es`: position by
position, an occurrence whose id is found in the entry list gets exactly the
resolved `newBinding`/`newSet` of that entry when those are not the `-1`
sentinel and keeps its own values otherwise, with every other field
untouched; an occurrence whose id is not found is returned unchanged; and
any two occurrences of the same id carry identical resolved values. -/
def WriteBackFaithful (orig out : List TIntermSymbol)
    (es : List TVarEntryInfo) : Prop :=
  out.length = orig.length ∧
  (∀ (k : Nat) (s s' : TIntermSymbol), orig.get? k = some s → out.get? k = some s' →
    (∀ e, es.find? (fun x => x.id == s.id) = some e →
      s'.id = s.id ∧ s'.name = s.name ∧ s'.type.basic = s.type.basic ∧
      s'.type.qualifier.storage = s.type.qualifier.storage ∧
      s'.type.qualifier.hasBinding = s.type.qualifier.hasBinding ∧
      s'.type.qualifier.hasSet = s.type.qualifier.hasSet ∧
      s'.type.qualifier.layoutBinding =
        (if e.newBinding ≠ -1 then e.newBinding else s.type.qualifier.layoutBinding) ∧
      s'.type.qualifier.layoutSet =
        (if e.newSet ≠ -1 then e.newSet else s.type.qualifier.layoutSet)) ∧
    (es.find? (fun x => x.id == s.id) = none → s' = s)) ∧
  (∀ s₁ s₂ : TIntermSymbol, s₁ ∈ out → s₂ ∈ out → s₁.id = s₂.id →
    ∀ e, es.find? (fun x => x.id == s₁.id) = some e →
      (e.newBinding ≠ -1 →
        s₁.type.qualifier.layoutBinding = s₂.type.qualifier.layoutBinding) ∧
      (e.newSet ≠ -1 →
        s₁.type.qualifier.layoutSet = s₂.type.qualifier.layoutSet))

theorem writeback_map_faithful (orig : List TIntermSymbol)
    (es : List TVarEntryInfo) :
    WriteBackFaithful orig (orig.map (setVisitSymbol es)) es := by
  refine ⟨by simp, ?_, ?_⟩
  · intro k s s' hs hs'
    rw [List.get?_map, hs] at hs'
    have hs'' : s' = setVisitSymbol es s := by
      simpa using hs'.symm
    constructor
    · intro e hfind
      rw [hs'', setVisitSymbol_found es s e hfind]
      by_cases h1 : e.newBinding ≠ -1 <;> by_cases h2 : e.newSet ≠ -1 <;>
        simp [h1, h2]
    · intro hfind
      rw [hs'', setVisitSymbol_none es s hfind]
  · intro s₁ s₂ hm₁ hm₂ hid e hfind
    obtain ⟨t₁, ht₁, rfl⟩ := List.mem_map.mp hm₁
    obtain ⟨t₂, ht₂, rfl⟩ := List.mem_map.mp hm₂
    have hid₁ : (setVisitSymbol es t₁).id = t₁.id := setVisitSymbol_id es t₁
    have hid₂ : (setVisitSymbol es t₂).id = t₂.id := setVisitSymbol_id es t₂
    have hfind₁ : es.find? (fun x => x.id == t₁.id) = some e := by
      rw [← hid₁]; exact hfind
    have hfind₂ : es.find? (fun x => x.id == t₂.id) = some e := by
      have : t₂.id = t₁.id := by rw [← hid₁, ← hid₂, hid]
      rw [this]; exact hfind₁
    rw [setVisitSymbol_found es t₁ e hfind₁, setVisitSymbol_found es t₂ e hfind₂]
    constructor
    · intro h1; simp [h1]
    · intro h2; simp [h2]

/-- C5: after a successful `addStage` call with a resolver, the returned tree
is the input occurrence sequence with exactly the write-back applied: each
occurrence whose id appears in the final (post-resolution, id-sorted) entry
list carries the resolved `newBinding`/`newSet` of that entry wherever those
are not the `-1` sentinel and its original values otherwise, all other
fields and all occurrences with ids absent from the entry list are
untouched, and occurrences sharing an id carry identical resolved values. -/
theorem addStage_writeback_per_occurrence (stage : EShLanguage)
    (itm : TIntermediate) (sink : List String) (r : TIoMapResolver)
    (h1 : itm.numEntryPoints = 1) (h2 : itm.isRecursive = false)
    (h3 : itm.hasTreeRoot = true) :
    (addStage stage itm sink (some r)).1 = true ∧
    WriteBackFaithful itm.allSyms (addStage stage itm sink (some r)).2.1.allSyms
      (finalEntries stage itm sink r) := by
  have hrun : addStage stage itm sink (some r) =
      (true,
       { itm with allSyms :=
          itm.allSyms.map (setVisitSymbol (finalEntries stage itm sink r)) },
       (forEachResolve r { stage := stage, error := false } sink
         (prioritySorted itm)).sink) := by
    simp [addStage, finalEntries, h1, h2, h3]
  rw [hrun]
  exact ⟨rfl, writeback_map_faithful itm.allSyms (finalEntries stage itm sink r)⟩

/-- Witness for C5 at the concrete two-uniform program and the accept-all
resolver. -/
theorem addStage_writeback_per_occurrence_w :
    (addStage EShLanguage.EShLangVertex itm9 [] (some acceptAll)).1 = true ∧
    WriteBackFaithful itm9.allSyms
      (addStage EShLanguage.EShLangVertex itm9 [] (some acceptAll)).2.1.allSyms
      (finalEntries EShLanguage.EShLangVertex itm9 [] acceptAll) :=
  addStage_writeback_per_occurrence EShLanguage.EShLangVertex itm9 [] acceptAll
    rfl rfl rfl

end Glslang
